import Mathlib

/-!
# Categories router (`src/routes/categories.router.js`)

The file under verification is declarative wiring: it creates an Express
router and registers five routes on it, each preceded by a Swagger block.
The embedding has three layers.

* `program` is the file itself, statement by statement, in file order: the
  Swagger blocks and the `router.METHOD(path, ...callbacks)` calls.
* `router` is the value exported by the module: the registrations of
  `program` executed on `express.Router()`.
* `Router.handle` is the request dispatch of the Express router on which the
  file registers its routes (`Router.handle`, `Route.dispatch` and
  `Layer.match` of Express 4). The imported middlewares and controllers are
  opaque collaborators: their behaviour is a parameter (`Env.call`) and every
  theorem holds for all such behaviours.

What the dispatch takes from Express, beyond running a route's callbacks in
order until one does not call `next()`:

* a route matches a path through the expression compiled from its pattern with
  `end: true`, `strict: false`: `"/"` matches `/` (and the empty path), `"/:id"`
  matches one non-empty segment with an optional trailing slash;
* a captured parameter that `decodeURIComponent` rejects makes the match throw,
  and the request leaves the router with that error before any callback runs;
  whether a value decodes is a parameter (`Env.decodable`);
* a route registered with `router.get` and no `router.head` also answers `HEAD`
  requests (the route's `_handles_method`);
* a callback may call `next()`, `next('route')`, `next('router')`, `next(err)`
  (or throw), or not call `next` at all; none of the callbacks registered here
  is an error handler, so after an error no further callback runs;
* an `OPTIONS` request that no route handles gets the router's automatic
  response listing the methods of the path-matching routes.

The request's method and path are fixed during a dispatch: the path is the
pathname relative to the router's mount point, and callbacks do not rewrite
`req.method` or `req.url`.
-/

namespace CategoriesRouter

/-! ## Names imported by the module -/

/-- The schema imported from `../schemas/categories/create.schema`. -/
inductive Schema where
  | createCategorySchema
  deriving DecidableEq, Repr

/-- The callbacks the module passes to the router: the value of the call
`validateRequestSchema(schema)`, the two imported auth middlewares and the five
imported controller functions. -/
inductive Fn where
  | validateRequestSchema (schema : Schema)
  | usersTokenAuthMiddleware
  | userAuthMiddleware
  | postCreateCategory
  | getCategories
  | getCategoryById
  | updateCategory
  | deleteCategory
  deriving DecidableEq, Repr

/-- HTTP request methods. -/
inductive Method where
  | GET | HEAD | POST | PUT | DELETE | CONNECT | OPTIONS | TRACE | PATCH
  deriving DecidableEq, Repr

/-! ## The router object built by the registrations -/

/-- One entry of a route's stack: `route[method](fn)` pushes a layer that
remembers the method it was registered for. -/
structure Layer where
  method : Method
  handle : Fn
  deriving DecidableEq, Repr

/-- A route: its path pattern and the stack of its callbacks. -/
structure Route where
  path : String
  stack : List Layer
  deriving DecidableEq, Repr

/-- A router: the stack of its routes, in registration order. -/
structure Router where
  stack : List Route
  deriving DecidableEq, Repr

/-- The value of `express.Router()`: a router with an empty stack. -/
def express.Router : Router := ⟨[]⟩

/-- The call `router.METHOD(path, ...fns)`: a new route for `path` is pushed on
the router's stack, holding one layer per callback, in argument order. -/
def Router.register (r : Router) (m : Method) (path : String) (fns : List Fn) : Router :=
  ⟨r.stack ++ [⟨path, fns.map (Layer.mk m)⟩]⟩

/-! ## The file, statement by statement -/

/-- The content of a `@swagger` block, as far as the claims read it: either the
`components` block (with the schema names it declares) or one operation (a
documented path and the verb under it). -/
inductive Swagger where
  | components (schemas : List String)
  | operation (path : String) (verb : String)
  deriving DecidableEq, Repr

/-- A top-level statement of the file after `const router = express.Router()`. -/
inductive Stmt where
  | swagger (doc : Swagger)
  | register (m : Method) (path : String) (fns : List Fn)
  deriving DecidableEq, Repr

/-- The statements of `categories.router.js` from line 19 to line 347, in file
order. -/
def program : List Stmt :=
  [ .swagger (.components ["Category"]),
    .swagger (.operation "/categories" "post"),
    .register .POST "/"
      [.validateRequestSchema .createCategorySchema, .usersTokenAuthMiddleware,
       .userAuthMiddleware, .postCreateCategory],
    .swagger (.operation "/categories" "get"),
    .register .GET "/" [.usersTokenAuthMiddleware, .getCategories],
    .swagger (.operation "/categories/\x7bid\x7d" "get"),
    .register .GET "/:id" [.usersTokenAuthMiddleware, .getCategoryById],
    .swagger (.operation "/categories/\x7bid\x7d" "put"),
    .register .PUT "/:id" [.usersTokenAuthMiddleware, .userAuthMiddleware, .updateCategory],
    .swagger (.operation "/categories/\x7bid\x7d" "delete"),
    .register .DELETE "/:id"
      [.usersTokenAuthMiddleware, .userAuthMiddleware, .deleteCategory] ]

/-- Effect of one statement on the router: comments have none. -/
def Stmt.exec (r : Router) : Stmt → Router
  | .swagger _ => r
  | .register m path fns => r.register m path fns

/-- The exported router (`module.exports = router`). -/
def router : Router := program.foldl Stmt.exec express.Router

/-! ## The route table read off the router -/

/-- A route read as (method, path pattern, ordered middleware chain, handler):
the handler is the last callback of the route, the chain is what precedes it. -/
structure Entry where
  method : Method
  path : String
  chain : List Fn
  handler : Fn
  deriving DecidableEq, Repr

/-- Reading of one route; a route without callbacks has no reading. -/
def Route.entry (rt : Route) : Option Entry :=
  match rt.stack.getLast? with
  | none => none
  | some l => some ⟨l.method, rt.path, (rt.stack.map Layer.handle).dropLast, l.handle⟩

/-- The route table of a router. -/
def Router.table (r : Router) : List Entry := r.stack.filterMap Route.entry

/-- All callbacks of an entry, in invocation order. -/
def Entry.fns (e : Entry) : List Fn := e.chain ++ [e.handler]

/-! ## Path matching (`Layer.match`)

A route's layer is created with `end: true` and the router's defaults
(`strict: false`, case-insensitive). For patterns made of `/`-separated
segments, each a literal or a `:name` parameter, the compiled regular expression
is `^` followed by `\/segment` for every segment, then `\/?$`; a parameter is
`([^\/]+?)`. This covers both patterns of the file: `"/"` compiles to `^\/?$`
and `"/:id"` to `^\/(?:([^\/]+?))\/?$`. -/

/-- One segment of a path pattern. -/
inductive Seg where
  | lit (text : List Char)
  | param (name : List Char)
  deriving DecidableEq, Repr

/-- The pieces of a character list between its `/` characters. -/
def splitSlash : List Char → List (List Char)
  | [] => [[]]
  | c :: cs =>
    if c = '/' then [] :: splitSlash cs
    else
      match splitSlash cs with
      | [] => [[c]]
      | w :: ws => (c :: w) :: ws

/-- Segment of a pattern piece: `:name` is a parameter, anything else a literal. -/
def Seg.ofChars : List Char → Seg
  | ':' :: name => .param name
  | text => .lit text

/-- The segments of a pattern: its non-empty pieces. -/
def compilePath (pattern : String) : List Seg :=
  ((splitSlash pattern.data).filter (fun w => !w.isEmpty)).map Seg.ofChars

/-- ASCII lower-casing, for the case-insensitive comparison of literals. -/
def lowerAscii (c : Char) : Char :=
  if 'A'.toNat ≤ c.toNat ∧ c.toNat ≤ 'Z'.toNat then Char.ofNat (c.toNat + 32) else c

/-- Run of the compiled expression on a request path: `none` when the path does
not match, otherwise the captured parameter values, in order. -/
def matchSegs : List Seg → List Char → Option (List (List Char))
  | [], rest => if rest = [] ∨ rest = ['/'] then some [] else none
  | seg :: segs, '/' :: rest =>
    let here := rest.takeWhile (fun c => c ≠ '/')
    let after := rest.dropWhile (fun c => c ≠ '/')
    match seg with
    | .param _ => if here = [] then none else (matchSegs segs after).map (here :: ·)
    | .lit text =>
      if here.map lowerAscii = text.map lowerAscii then matchSegs segs after else none
  | _ :: _, _ => none

/-- Result of matching a layer against a request path. A path that matches the
expression but holds a parameter that `decodeURIComponent` rejects makes the
match throw. -/
inductive Match where
  | no
  | yes
  | uriError
  deriving DecidableEq, Repr

/-! ## Collaborators -/

/-- What a callback does with the `next` it receives: call it plainly, call it
with `'route'` or `'router'`, hand it an error (or throw), or not call it at all
(the callback answered the request itself, or left it pending). -/
inductive Signal (ε : Type) where
  | next
  | nextRoute
  | nextRouter
  | fail (e : ε)
  | stop
  deriving DecidableEq, Repr

/-- The behaviour of everything the file imports. `call fn s` is the effect of
invoking callback `fn` on the request/response state `s`; `decodable v` tells
whether `decodeURIComponent` accepts the captured parameter value `v`. Callbacks
are ordinary `(req, res, next)` functions and leave the request's method and
path alone. -/
structure Env (σ ε : Type) where
  call : Fn → σ → σ × Signal ε
  decodable : List Char → Bool

/-- Match of a path pattern against a request path: the expression is run and
every captured non-empty value is decoded. -/
def pathMatch {σ ε : Type} (env : Env σ ε) (pattern path : String) : Match :=
  match matchSegs (compilePath pattern) path.data with
  | none => .no
  | some vals => if vals.all (fun v => v.isEmpty || env.decodable v) then .yes else .uriError

/-- Match of a route's layer against a request path. -/
def Route.matchPath {σ ε : Type} (env : Env σ ε) (rt : Route) (path : String) : Match :=
  pathMatch env rt.path path

/-! ## Dispatch (`Route.dispatch`, `Router.handle`) -/

/-- Whether the route has a layer for the method. -/
def Route.hasMethod (rt : Route) (m : Method) : Bool :=
  rt.stack.any (fun l => l.method = m)

/-- The method a route dispatches a request under: `HEAD` falls back to `GET`
on a route without a `HEAD` layer. -/
def Route.effective (rt : Route) (m : Method) : Method :=
  if m = .HEAD ∧ rt.hasMethod .HEAD = false then .GET else m

/-- The route's `_handles_method`. -/
def Route.handlesMethod (rt : Route) (m : Method) : Bool :=
  rt.hasMethod (rt.effective m)

/-- The route's `_options`: its methods in registration order, with `HEAD`
added to a `GET` route that has no `HEAD` layer. -/
def Route.options (rt : Route) : List Method :=
  let ms := (rt.stack.map Layer.method).eraseDups
  if rt.hasMethod .GET ∧ rt.hasMethod .HEAD = false then ms ++ [.HEAD] else ms

/-- The router's `appendMethods`. -/
def appendMethods (list addition : List Method) : List Method :=
  addition.foldl (fun acc m => if m ∈ acc then acc else acc ++ [m]) list

/-- An invocation record: the callback and what it did with `next`. -/
abbrev Trace (ε : Type) := List (Fn × Signal ε)

/-- `Route.dispatch`: the layers of the route registered for the method run in
order, each on the state left by the previous one, as long as they call
`next()`. After `next('route')` or `next('router')` the route is left at once;
after an error the remaining layers are skipped, none being an error handler.
The result is the invocations, the final state and how the route was left
(`next` when its stack was exhausted). -/
def Route.dispatch {σ ε : Type} (env : Env σ ε) (m : Method) :
    List Layer → σ → Trace ε × σ × Signal ε
  | [], s => ([], s, .next)
  | l :: ls, s =>
    if l.method = m then
      match env.call l.handle s with
      | (s1, .next) =>
        let r := Route.dispatch env m ls s1
        ((l.handle, .next) :: r.1, r.2.1, r.2.2)
      | (s1, sig) => ([(l.handle, sig)], s1, sig)
    else Route.dispatch env m ls s

/-- How the router leaves a request: passed on to whatever follows the router
(`passed`), answered by the router's automatic `OPTIONS` response (`allow`),
passed on with an error (`failed`, `uriError`), or left with the callback that
did not call `next` (`stopped`). -/
inductive Outcome (ε : Type) where
  | passed
  | allow (methods : List Method)
  | failed (e : ε)
  | uriError
  | stopped
  deriving DecidableEq, Repr

/-- Result of a dispatch through the router. -/
structure Result (σ ε : Type) where
  trace : Trace ε
  state : σ
  outcome : Outcome ε

/-- The router's exit without error: an `OPTIONS` request for which methods
were collected gets the automatic response. -/
def finish {ε : Type} (m : Method) (options : List Method) : Outcome ε :=
  if m = .OPTIONS ∧ options ≠ [] then .allow options else .passed

/-- The loop of `Router.handle` over the router's stack. A route is entered
when its layer matches the path and it handles the method (a `HEAD` request
enters every path-matching route, whose layers then filter on the effective
method); a pending error stops the search, as routes never match with one. -/
def Router.loop {σ ε : Type} (env : Env σ ε) (m : Method) (path : String) :
    List Route → List Method → σ → Result σ ε
  | [], options, s => ⟨[], s, finish m options⟩
  | rt :: rts, options, s =>
    match rt.matchPath env path with
    | .no => Router.loop env m path rts options s
    | .uriError => ⟨[], s, .uriError⟩
    | .yes =>
      if rt.handlesMethod m ∨ m = .HEAD then
        match Route.dispatch env (rt.effective m) rt.stack s with
        | (t, s1, .next) =>
          let r := Router.loop env m path rts options s1
          ⟨t ++ r.trace, r.state, r.outcome⟩
        | (t, s1, .nextRoute) =>
          let r := Router.loop env m path rts options s1
          ⟨t ++ r.trace, r.state, r.outcome⟩
        | (t, s1, .nextRouter) => ⟨t, s1, finish m options⟩
        | (t, s1, .fail e) => ⟨t, s1, .failed e⟩
        | (t, s1, .stop) => ⟨t, s1, .stopped⟩
      else if m = .OPTIONS then
        Router.loop env m path rts (appendMethods options rt.options) s
      else Router.loop env m path rts options s

/-- Dispatch of a request (method, path, state) through a router. -/
def Router.handle {σ ε : Type} (r : Router) (env : Env σ ε) (m : Method) (path : String)
    (s : σ) : Result σ ε :=
  Router.loop env m path r.stack [] s

/-- The callbacks invoked by a dispatch, in order. -/
def Result.invoked {σ ε : Type} (r : Result σ ε) : List Fn := r.trace.map Prod.fst

/-- Outcome of a route left with the given signal when nothing follows. -/
def Signal.outcome {ε : Type} : Signal ε → Outcome ε
  | .next => .passed
  | .nextRoute => .passed
  | .nextRouter => .passed
  | .fail e => .failed e
  | .stop => .stopped

/-! ## Vocabulary of the statements -/

/-- Whether the router enters the route for a request: its layer matches the
path and the route handles the method. -/
def Route.selects {σ ε : Type} (env : Env σ ε) (rt : Route) (m : Method) (path : String) :
    Bool :=
  decide (rt.matchPath env path = .yes) && rt.handlesMethod m

/-- The entries of the route table matched by a request. -/
def Router.selected {σ ε : Type} (r : Router) (env : Env σ ε) (m : Method) (path : String) :
    List Entry :=
  (r.stack.filter (fun rt => rt.selects env m path)).filterMap Route.entry

/-- Whether a request path matches the expression compiled from a pattern. -/
def matchesPattern (pattern path : String) : Bool :=
  (matchSegs (compilePath pattern) path.data).isSome

/-- The state after the callbacks `fns` have run in order from state `s`. -/
def Env.after {σ ε : Type} (env : Env σ ε) (fns : List Fn) (s : σ) : σ :=
  fns.foldl (fun st f => (env.call f st).1) s

/-- What the `k`-th callback of `fns` does with `next` when the callbacks before
it have run from state `s`. -/
def Env.signalAt {σ ε : Type} (env : Env σ ε) (fns : List Fn) (s : σ) (k : Nat) :
    Option (Signal ε) :=
  fns[k]?.map (fun f => (env.call f (env.after (fns.take k) s)).2)

/-- The `k`-th callback of `fns` forwards (calls `next()`) when the callbacks
before it have run from state `s`. -/
def Env.forwardsAt {σ ε : Type} (env : Env σ ε) (fns : List Fn) (s : σ) (k : Nat) : Prop :=
  env.signalAt fns s k = some .next

/-- The result of running the callbacks of an entry as one route and leaving
the router with what the route was left with. -/
def runEntry {σ ε : Type} (env : Env σ ε) (e : Entry) (s : σ) : Result σ ε :=
  let d := Route.dispatch env e.method (e.fns.map (Layer.mk e.method)) s
  ⟨d.1, d.2.1, d.2.2.outcome⟩

/-- The environment in which every callback calls `next()` and every parameter
value decodes. -/
def forwardAll : Env Unit Unit := ⟨fun _ s => (s, .next), fun _ => true⟩

/-- The environment in which the schema validation answers the request itself
and every other callback calls `next()`. -/
def rejectBody : Env Unit Unit :=
  ⟨fun f s => (s, if f = .validateRequestSchema .createCategorySchema then .stop else .next),
   fun _ => true⟩

/-! ## Swagger documentation read off the file -/

/-- The verb under which Swagger documents a method. -/
def Method.verb : Method → String
  | .GET => "get" | .HEAD => "head" | .POST => "post" | .PUT => "put"
  | .DELETE => "delete" | .CONNECT => "connect" | .OPTIONS => "options"
  | .TRACE => "trace" | .PATCH => "patch"

/-- The documented path of a route pattern under a mount point: the segments
of the pattern after the mount point, a parameter `:name` written in braces. -/
def openApiPath (mount pattern : String) : String :=
  mount ++ String.join ((compilePath pattern).map (fun seg =>
    match seg with
    | .lit text => "/" ++ String.mk text
    | .param name => "/\x7b" ++ String.mk name ++ "\x7d"))

/-- The operations documented by the Swagger blocks of a file, in file order. -/
def documented : List Stmt → List (String × String)
  | [] => []
  | .swagger (.operation path verb) :: rest => (path, verb) :: documented rest
  | _ :: rest => documented rest

/-- The Swagger block and the registration the file would hold for an entry
of the route table under a mount point. -/
def Entry.stmts (mount : String) (e : Entry) : List Stmt :=
  [.swagger (.operation (openApiPath mount e.path) e.method.verb),
   .register e.method e.path e.fns]

/-! ## The registered routes -/

theorem router_stack :
    router.stack =
      [ ⟨"/", [⟨.POST, .validateRequestSchema .createCategorySchema⟩,
               ⟨.POST, .usersTokenAuthMiddleware⟩, ⟨.POST, .userAuthMiddleware⟩,
               ⟨.POST, .postCreateCategory⟩]⟩,
        ⟨"/", [⟨.GET, .usersTokenAuthMiddleware⟩, ⟨.GET, .getCategories⟩]⟩,
        ⟨"/:id", [⟨.GET, .usersTokenAuthMiddleware⟩, ⟨.GET, .getCategoryById⟩]⟩,
        ⟨"/:id", [⟨.PUT, .usersTokenAuthMiddleware⟩, ⟨.PUT, .userAuthMiddleware⟩,
                  ⟨.PUT, .updateCategory⟩]⟩,
        ⟨"/:id", [⟨.DELETE, .usersTokenAuthMiddleware⟩, ⟨.DELETE, .userAuthMiddleware⟩,
                  ⟨.DELETE, .deleteCategory⟩]⟩ ] := rfl

theorem compilePath_root : compilePath "/" = [] := by decide

theorem compilePath_id : compilePath "/:id" = [.param ['i', 'd']] := by decide

/-! ## Path classes -/

theorem matchSegs_nil (p : List Char) :
    matchSegs [] p = if p = [] ∨ p = ['/'] then some [] else none := by
  cases p <;> rfl

theorem matchSegs_param_of_root (n : List Char) (p : List Char)
    (h : p = [] ∨ p = ['/']) : matchSegs [.param n] p = none := by
  rcases h with rfl | rfl
  · rfl
  · rfl

variable {σ ε : Type}

theorem matchPath_root (env : Env σ ε) (st : List Layer) (path : String) :
    (⟨"/", st⟩ : Route).matchPath env path = if matchesPattern "/" path then .yes else .no := by
  simp only [Route.matchPath, pathMatch, matchesPattern, compilePath_root, matchSegs_nil]
  split_ifs <;> simp_all

theorem root_excludes_id (path : String) (h : matchesPattern "/" path = true) :
    matchesPattern "/:id" path = false := by
  simp only [matchesPattern, compilePath_root, compilePath_id, matchSegs_nil] at h ⊢
  split_ifs at h with hp
  · rw [matchSegs_param_of_root _ _ hp]; rfl
  · simp at h

theorem matchPath_id_of_not (env : Env σ ε) (st : List Layer) (path : String)
    (h : matchesPattern "/:id" path = false) :
    (⟨"/:id", st⟩ : Route).matchPath env path = .no := by
  simp only [Route.matchPath, pathMatch, matchesPattern] at h ⊢
  cases hm : matchSegs (compilePath "/:id") path.data with
  | none => rfl
  | some v => simp [hm] at h

theorem matchPath_id_ne_no (env : Env σ ε) (st : List Layer) (path : String)
    (h : matchesPattern "/:id" path = true) :
    (⟨"/:id", st⟩ : Route).matchPath env path ≠ .no := by
  simp only [Route.matchPath, pathMatch, matchesPattern] at h ⊢
  cases hm : matchSegs (compilePath "/:id") path.data with
  | none => simp [hm] at h
  | some v => simp only; split_ifs <;> simp

/-- The four classes of request paths, as the layers of the router see them. -/
theorem path_cases (env : Env σ ε) (path : String) :
    (matchesPattern "/" path = true ∧ matchesPattern "/:id" path = false) ∨
    (matchesPattern "/" path = false ∧ matchesPattern "/:id" path = true ∧
      (⟨"/:id", []⟩ : Route).matchPath env path = .yes) ∨
    (matchesPattern "/" path = false ∧ matchesPattern "/:id" path = true ∧
      (⟨"/:id", []⟩ : Route).matchPath env path = .uriError) ∨
    (matchesPattern "/" path = false ∧ matchesPattern "/:id" path = false) := by
  cases hr : matchesPattern "/" path
  · cases hi : matchesPattern "/:id" path
    · simp
    · have := matchPath_id_ne_no env [] path hi
      cases hm : (⟨"/:id", []⟩ : Route).matchPath env path <;> simp_all
  · simp [root_excludes_id path hr]

theorem selected_cases (env : Env σ ε) (m : Method) (path : String) (s : σ) :
    (router.selected env m path = [] ∧ (router.handle env m path s).trace = [] ∧
      (router.handle env m path s).state = s) ∨
    ∃ e, router.selected env m path = [e] ∧ e ∈ router.table ∧
      router.handle env m path s = runEntry env e s := by
  have hst := router_stack
  have hskip1 : ∀ s : σ, Route.dispatch env .GET
      [⟨.POST, .validateRequestSchema .createCategorySchema⟩,
       ⟨.POST, .usersTokenAuthMiddleware⟩, ⟨.POST, .userAuthMiddleware⟩,
       ⟨.POST, .postCreateCategory⟩] s = ([], s, .next) := fun s => by
    simp [Route.dispatch]
  have hskip4 : ∀ s : σ, Route.dispatch env .GET
      [⟨.PUT, .usersTokenAuthMiddleware⟩, ⟨.PUT, .userAuthMiddleware⟩,
       ⟨.PUT, .updateCategory⟩] s = ([], s, .next) := fun s => by
    simp [Route.dispatch]
  have hskip5 : ∀ s : σ, Route.dispatch env .GET
      [⟨.DELETE, .usersTokenAuthMiddleware⟩, ⟨.DELETE, .userAuthMiddleware⟩,
       ⟨.DELETE, .deleteCategory⟩] s = ([], s, .next) := fun s => by
    simp [Route.dispatch]
  rcases path_cases env path with ⟨hr, hi⟩ | ⟨hr, hi, hy⟩ | ⟨hr, hi, hy⟩ | ⟨hr, hi⟩
  · have h1 : ∀ st, (⟨"/", st⟩ : Route).matchPath env path = .yes := fun st => by
      rw [matchPath_root, hr]; rfl
    have h2 : ∀ st, (⟨"/:id", st⟩ : Route).matchPath env path = .no := fun st =>
      matchPath_id_of_not env st path hi
    cases m
    case GET | HEAD =>
      right
      refine ⟨⟨.GET, "/", [.usersTokenAuthMiddleware], .getCategories⟩, ?_, ?_, ?_⟩
      · simp [Router.selected, hst, Route.selects, h1, h2, Route.handlesMethod,
          Route.effective, Route.hasMethod, Route.entry]
      · simp [Router.table, hst, Route.entry]
      · simp only [Router.handle, hst, Router.loop, h1, h2, runEntry, Entry.fns]
        simp [Route.handlesMethod, Route.effective, Route.hasMethod, hskip1]
        split <;> simp_all [finish, Signal.outcome]
    case POST =>
      right
      refine ⟨⟨.POST, "/", [.validateRequestSchema .createCategorySchema,
        .usersTokenAuthMiddleware, .userAuthMiddleware], .postCreateCategory⟩, ?_, ?_, ?_⟩
      · simp [Router.selected, hst, Route.selects, h1, h2, Route.handlesMethod,
          Route.effective, Route.hasMethod, Route.entry]
      · simp [Router.table, hst, Route.entry]
      · simp only [Router.handle, hst, Router.loop, h1, h2, runEntry, Entry.fns]
        simp [Route.handlesMethod, Route.effective, Route.hasMethod]
        split <;> simp_all [finish, Signal.outcome]
    all_goals
      left
      refine ⟨?_, ?_, ?_⟩
      · simp [Router.selected, hst, Route.selects, h1, h2, Route.handlesMethod,
          Route.effective, Route.hasMethod, Route.entry]
      · simp [Router.handle, hst, Router.loop, h1, h2, Route.handlesMethod, Route.effective,
          Route.hasMethod]
      · simp [Router.handle, hst, Router.loop, h1, h2, Route.handlesMethod, Route.effective,
          Route.hasMethod]
  · have h1 : ∀ st, (⟨"/", st⟩ : Route).matchPath env path = .no := fun st => by
      rw [matchPath_root, hr]; rfl
    have h2 : ∀ st, (⟨"/:id", st⟩ : Route).matchPath env path = .yes := fun st => hy
    cases m
    case GET | HEAD =>
      right
      refine ⟨⟨.GET, "/:id", [.usersTokenAuthMiddleware], .getCategoryById⟩, ?_, ?_, ?_⟩
      · simp [Router.selected, hst, Route.selects, h1, h2, Route.handlesMethod,
          Route.effective, Route.hasMethod, Route.entry]
      · simp [Router.table, hst, Route.entry]
      · simp only [Router.handle, hst, Router.loop, h1, h2, runEntry, Entry.fns]
        simp [Route.handlesMethod, Route.effective, Route.hasMethod, hskip4, hskip5]
        split <;> simp_all [finish, Signal.outcome]
    case PUT =>
      right
      refine ⟨⟨.PUT, "/:id", [.usersTokenAuthMiddleware, .userAuthMiddleware],
        .updateCategory⟩, ?_, ?_, ?_⟩
      · simp [Router.selected, hst, Route.selects, h1, h2, Route.handlesMethod,
          Route.effective, Route.hasMethod, Route.entry]
      · simp [Router.table, hst, Route.entry]
      · simp only [Router.handle, hst, Router.loop, h1, h2, runEntry, Entry.fns]
        simp [Route.handlesMethod, Route.effective, Route.hasMethod]
        split <;> simp_all [finish, Signal.outcome]
    case DELETE =>
      right
      refine ⟨⟨.DELETE, "/:id", [.usersTokenAuthMiddleware, .userAuthMiddleware],
        .deleteCategory⟩, ?_, ?_, ?_⟩
      · simp [Router.selected, hst, Route.selects, h1, h2, Route.handlesMethod,
          Route.effective, Route.hasMethod, Route.entry]
      · simp [Router.table, hst, Route.entry]
      · simp only [Router.handle, hst, Router.loop, h1, h2, runEntry, Entry.fns]
        simp [Route.handlesMethod, Route.effective, Route.hasMethod]
        split <;> simp_all [finish, Signal.outcome]
    all_goals
      left
      refine ⟨?_, ?_, ?_⟩
      · simp [Router.selected, hst, Route.selects, h1, h2, Route.handlesMethod,
          Route.effective, Route.hasMethod, Route.entry]
      · simp [Router.handle, hst, Router.loop, h1, h2, Route.handlesMethod, Route.effective,
          Route.hasMethod]
      · simp [Router.handle, hst, Router.loop, h1, h2, Route.handlesMethod, Route.effective,
          Route.hasMethod]
  · have h1 : ∀ st, (⟨"/", st⟩ : Route).matchPath env path = .no := fun st => by
      rw [matchPath_root, hr]; rfl
    have h2 : ∀ st, (⟨"/:id", st⟩ : Route).matchPath env path = .uriError := fun st => hy
    left
    refine ⟨?_, ?_, ?_⟩
    · simp [Router.selected, hst, Route.selects, h1, h2]
    · simp [Router.handle, hst, Router.loop, h1, h2]
    · simp [Router.handle, hst, Router.loop, h1, h2]
  · have h1 : ∀ st, (⟨"/", st⟩ : Route).matchPath env path = .no := fun st => by
      rw [matchPath_root, hr]; rfl
    have h2 : ∀ st, (⟨"/:id", st⟩ : Route).matchPath env path = .no := fun st =>
      matchPath_id_of_not env st path hi
    left
    refine ⟨?_, ?_, ?_⟩
    · simp [Router.selected, hst, Route.selects, h1, h2]
    · simp [Router.handle, hst, Router.loop, h1, h2]
    · simp [Router.handle, hst, Router.loop, h1, h2]

/-! ## A route whose layers are all registered for the request's method -/

theorem signalAt_zero (env : Env σ ε) (f : Fn) (fns : List Fn) (s : σ) :
    env.signalAt (f :: fns) s 0 = some (env.call f s).2 := by
  simp [Env.signalAt, Env.after]

theorem signalAt_succ (env : Env σ ε) (f : Fn) (fns : List Fn) (s : σ) (k : Nat) :
    env.signalAt (f :: fns) s (k + 1) = env.signalAt fns (env.call f s).1 k := by
  simp [Env.signalAt, Env.after]

theorem dispatch_cons_next (env : Env σ ε) (m : Method) (f : Fn) (fns : List Fn) (s : σ)
    (h : (env.call f s).2 = .next) :
    Route.dispatch env m ((f :: fns).map (Layer.mk m)) s =
      ((f, .next) :: (Route.dispatch env m (fns.map (Layer.mk m)) (env.call f s).1).1,
       (Route.dispatch env m (fns.map (Layer.mk m)) (env.call f s).1).2.1,
       (Route.dispatch env m (fns.map (Layer.mk m)) (env.call f s).1).2.2) := by
  rcases hc : env.call f s with ⟨s1, sig⟩
  rw [hc] at h
  simp only at h
  subst h
  simp [Route.dispatch, hc]

theorem dispatch_cons_stop (env : Env σ ε) (m : Method) (f : Fn) (fns : List Fn) (s : σ)
    (h : (env.call f s).2 ≠ .next) :
    Route.dispatch env m ((f :: fns).map (Layer.mk m)) s =
      ([(f, (env.call f s).2)], (env.call f s).1, (env.call f s).2) := by
  rcases hc : env.call f s with ⟨s1, sig⟩
  rw [hc] at h
  cases sig <;> simp_all [Route.dispatch]

/-- The callbacks invoked are an initial part of the route's callbacks. -/
theorem dispatch_initial (env : Env σ ε) (m : Method) (fns : List Fn) (s : σ) :
    (Route.dispatch env m (fns.map (Layer.mk m)) s).1.map Prod.fst <+: fns := by
  induction fns generalizing s with
  | nil => simp [Route.dispatch]
  | cons f fns ih =>
    by_cases h : (env.call f s).2 = .next
    · rw [dispatch_cons_next env m f fns s h]
      simpa using ih _
    · rw [dispatch_cons_stop env m f fns s h]
      simp [List.prefix_iff_eq_take]

/-- Each recorded invocation is the corresponding callback of the route with the
signal it gives on the state left by the callbacks before it. -/
theorem dispatch_entry (env : Env σ ε) (m : Method) (fns : List Fn) (s : σ) (k : Nat)
    (x : Fn × Signal ε)
    (h : (Route.dispatch env m (fns.map (Layer.mk m)) s).1[k]? = some x) :
    fns[k]? = some x.1 ∧ env.signalAt fns s k = some x.2 := by
  induction fns generalizing s k with
  | nil => simp [Route.dispatch] at h
  | cons f fns ih =>
    by_cases hn : (env.call f s).2 = .next
    · rw [dispatch_cons_next env m f fns s hn] at h
      cases k with
      | zero =>
        simp at h
        subst h
        simp [signalAt_zero, hn]
      | succ k =>
        simp only [List.getElem?_cons_succ] at h
        simpa [signalAt_succ] using ih _ _ h
    · rw [dispatch_cons_stop env m f fns s hn] at h
      cases k with
      | zero =>
        simp at h
        subst h
        simp [signalAt_zero]
      | succ k => simp at h

/-- The `k`-th callback is invoked exactly when all callbacks before it forward. -/
theorem dispatch_length (env : Env σ ε) (m : Method) (fns : List Fn) (s : σ) (k : Nat) :
    k < (Route.dispatch env m (fns.map (Layer.mk m)) s).1.length ↔
      k < fns.length ∧ ∀ j, j < k → env.forwardsAt fns s j := by
  induction fns generalizing s k with
  | nil => simp [Route.dispatch]
  | cons f fns ih =>
    by_cases hn : (env.call f s).2 = .next
    · rw [dispatch_cons_next env m f fns s hn]
      cases k with
      | zero => simp
      | succ k =>
        simp only [List.length_cons, Nat.add_lt_add_iff_right, ih]
        constructor
        · rintro ⟨h1, h2⟩
          refine ⟨h1, fun j hj => ?_⟩
          cases j with
          | zero => simpa [Env.forwardsAt, signalAt_zero] using hn
          | succ j =>
            have := h2 j (by omega)
            simpa [Env.forwardsAt, signalAt_succ] using this
        · rintro ⟨h1, h2⟩
          refine ⟨h1, fun j hj => ?_⟩
          have := h2 (j + 1) (by omega)
          simpa [Env.forwardsAt, signalAt_succ] using this
    · rw [dispatch_cons_stop env m f fns s hn]
      cases k with
      | zero => simp
      | succ k =>
        simp only [List.length_singleton, List.length_cons]
        constructor
        · intro h
          simp at h
        · rintro ⟨_, h2⟩
          have := h2 0 (by omega)
          simp [Env.forwardsAt, signalAt_zero] at this
          exact absurd this hn

/-- The final state is the state left by the callbacks invoked. -/
theorem dispatch_state (env : Env σ ε) (m : Method) (fns : List Fn) (s : σ) :
    (Route.dispatch env m (fns.map (Layer.mk m)) s).2.1 =
      env.after (fns.take (Route.dispatch env m (fns.map (Layer.mk m)) s).1.length) s := by
  induction fns generalizing s with
  | nil => simp [Route.dispatch, Env.after]
  | cons f fns ih =>
    by_cases hn : (env.call f s).2 = .next
    · rw [dispatch_cons_next env m f fns s hn]
      simp only [List.length_cons, List.take_succ_cons]
      rw [ih]
      simp [Env.after]
    · rw [dispatch_cons_stop env m f fns s hn]
      simp [Env.after]

/-- A route with callbacks is left with the signal of the last callback
invoked, which either did not forward or is the last callback of the route. -/
theorem dispatch_last (env : Env σ ε) (m : Method) (fns : List Fn) (s : σ) (hne : fns ≠ []) :
    ∃ x, (Route.dispatch env m (fns.map (Layer.mk m)) s).1.getLast? = some x ∧
      (Route.dispatch env m (fns.map (Layer.mk m)) s).2.2 = x.2 ∧
      (x.2 ≠ .next ∨ fns.getLast? = some x.1) := by
  induction fns generalizing s with
  | nil => exact absurd rfl hne
  | cons f fns ih =>
    by_cases hn : (env.call f s).2 = .next
    · rw [dispatch_cons_next env m f fns s hn]
      cases fns with
      | nil =>
        refine ⟨(f, .next), ?_, ?_, ?_⟩ <;> simp [Route.dispatch]
      | cons g gs =>
        obtain ⟨x, h1, h2, h3⟩ := ih (env.call f s).1 (by simp)
        refine ⟨x, ?_, h2, ?_⟩
        · rw [List.getLast?_cons, h1]; rfl
        · rcases h3 with h3 | h3
          · exact Or.inl h3
          · right
            rw [List.getLast?_cons_cons]; exact h3
    · rw [dispatch_cons_stop env m f fns s hn]
      exact ⟨(f, (env.call f s).2), by simp, rfl, Or.inl hn⟩

/-! ## Selection and dispatch on the exported router -/

theorem router_table :
    router.table =
      [ ⟨.POST, "/", [.validateRequestSchema .createCategorySchema, .usersTokenAuthMiddleware,
          .userAuthMiddleware], .postCreateCategory⟩,
        ⟨.GET, "/", [.usersTokenAuthMiddleware], .getCategories⟩,
        ⟨.GET, "/:id", [.usersTokenAuthMiddleware], .getCategoryById⟩,
        ⟨.PUT, "/:id", [.usersTokenAuthMiddleware, .userAuthMiddleware], .updateCategory⟩,
        ⟨.DELETE, "/:id", [.usersTokenAuthMiddleware, .userAuthMiddleware],
          .deleteCategory⟩ ] := by
  decide

/-- A request selects an entry exactly when the entry's pattern matches its
path and the entry's method is the request's, or is `GET` for a `HEAD` request. -/
theorem mem_selected_iff (env : Env σ ε) (m : Method) (path : String) (e : Entry) :
    e ∈ router.selected env m path ↔
      e ∈ router.table ∧ (m = e.method ∨ (m = .HEAD ∧ e.method = .GET)) ∧
        pathMatch env e.path path = .yes := by
  rw [router_table]
  simp only [Router.selected, List.mem_filterMap, List.mem_filter, router_stack,
    List.mem_cons, List.mem_singleton, List.not_mem_nil, or_false]
  constructor
  · rintro ⟨rt, ⟨hrt, hsel⟩, hent⟩
    rcases hrt with rfl | rfl | rfl | rfl | rfl <;>
      simp only [Route.entry, List.getLast?, List.getLast, Option.some.injEq, List.map,
        List.dropLast] at hent <;>
      subst hent <;>
      cases m <;>
      simp_all [Route.selects, Route.matchPath, Route.handlesMethod, Route.effective,
        Route.hasMethod]
  · rintro ⟨he, hm, hp⟩
    rcases he with rfl | rfl | rfl | rfl | rfl
    · refine ⟨⟨"/", [⟨.POST, .validateRequestSchema .createCategorySchema⟩,
        ⟨.POST, .usersTokenAuthMiddleware⟩, ⟨.POST, .userAuthMiddleware⟩,
        ⟨.POST, .postCreateCategory⟩]⟩, ⟨by simp, ?_⟩, rfl⟩
      rcases hm with rfl | ⟨rfl, hm⟩ <;>
        simp_all [Route.selects, Route.matchPath, Route.handlesMethod, Route.effective,
          Route.hasMethod]
    · refine ⟨⟨"/", [⟨.GET, .usersTokenAuthMiddleware⟩, ⟨.GET, .getCategories⟩]⟩,
        ⟨by simp, ?_⟩, rfl⟩
      rcases hm with rfl | ⟨rfl, hm⟩ <;>
        simp_all [Route.selects, Route.matchPath, Route.handlesMethod, Route.effective,
          Route.hasMethod]
    · refine ⟨⟨"/:id", [⟨.GET, .usersTokenAuthMiddleware⟩, ⟨.GET, .getCategoryById⟩]⟩,
        ⟨by simp, ?_⟩, rfl⟩
      rcases hm with rfl | ⟨rfl, hm⟩ <;>
        simp_all [Route.selects, Route.matchPath, Route.handlesMethod, Route.effective,
          Route.hasMethod]
    · refine ⟨⟨"/:id", [⟨.PUT, .usersTokenAuthMiddleware⟩, ⟨.PUT, .userAuthMiddleware⟩,
        ⟨.PUT, .updateCategory⟩]⟩, ⟨by simp, ?_⟩, rfl⟩
      rcases hm with rfl | ⟨rfl, hm⟩ <;>
        simp_all [Route.selects, Route.matchPath, Route.handlesMethod, Route.effective,
          Route.hasMethod]
    · refine ⟨⟨"/:id", [⟨.DELETE, .usersTokenAuthMiddleware⟩, ⟨.DELETE, .userAuthMiddleware⟩,
        ⟨.DELETE, .deleteCategory⟩]⟩, ⟨by simp, ?_⟩, rfl⟩
      rcases hm with rfl | ⟨rfl, hm⟩ <;>
        simp_all [Route.selects, Route.matchPath, Route.handlesMethod, Route.effective,
          Route.hasMethod]

/-- A selected entry is the only one, and the dispatch is the run of its
callbacks. -/
theorem handle_of_mem_selected (env : Env σ ε) (m : Method) (path : String) (s : σ)
    (e : Entry) (h : e ∈ router.selected env m path) :
    router.selected env m path = [e] ∧ e ∈ router.table ∧
      router.handle env m path s = runEntry env e s := by
  rcases selected_cases env m path s with ⟨h0, _⟩ | ⟨e1, h1, h2, h3⟩
  · rw [h0] at h; simp at h
  · rw [h1] at h
    simp only [List.mem_singleton] at h
    subst h
    exact ⟨h1, h2, h3⟩

/-- Without a selected entry nothing is invoked. -/
theorem handle_of_selected_nil (env : Env σ ε) (m : Method) (path : String) (s : σ)
    (h : router.selected env m path = []) :
    (router.handle env m path s).trace = [] ∧ (router.handle env m path s).state = s := by
  rcases selected_cases env m path s with ⟨_, h1, h2⟩ | ⟨e1, h1, _, _⟩
  · exact ⟨h1, h2⟩
  · rw [h] at h1; simp at h1

/-- Everything recorded before an invocation forwarded. -/
theorem dispatch_before (env : Env σ ε) (m : Method) (fns : List Fn) (s : σ) (k j : Nat)
    (x : Fn × Signal ε)
    (h : (Route.dispatch env m (fns.map (Layer.mk m)) s).1[k]? = some x) (hj : j < k) :
    ∃ f, fns[j]? = some f ∧
      (Route.dispatch env m (fns.map (Layer.mk m)) s).1[j]? = some (f, .next) := by
  have hk : k < (Route.dispatch env m (fns.map (Layer.mk m)) s).1.length := by
    by_contra hc
    rw [List.getElem?_eq_none (by omega)] at h
    simp at h
  have hfw := ((dispatch_length env m fns s k).1 hk).2 j hj
  have hjl : j < (Route.dispatch env m (fns.map (Layer.mk m)) s).1.length := by omega
  have hget : (Route.dispatch env m (fns.map (Layer.mk m)) s).1[j]? =
      some ((Route.dispatch env m (fns.map (Layer.mk m)) s).1[j]) :=
    List.getElem?_eq_getElem hjl
  obtain ⟨h1, h2⟩ := dispatch_entry env m fns s j _ hget
  refine ⟨_, h1, ?_⟩
  rw [hget]
  simp only [Env.forwardsAt] at hfw
  rw [hfw] at h2
  simp only [Option.some.injEq] at h2
  exact congrArg some (Prod.ext rfl h2.symm)

theorem mem_take_append_singleton {α : Type} (c : List α) (h : α) (n : Nat) (hc : h ∉ c) :
    h ∈ (c ++ [h]).take n ↔ c.length < n := by
  constructor
  · intro hm
    by_contra hn
    have hle : n ≤ c.length := by omega
    rw [List.take_append_of_le_length hle] at hm
    exact hc (List.mem_of_mem_take hm)
  · intro hn
    rw [List.take_of_length_le (by simp; omega)]
    simp

/-- A request selects at most one entry. -/
theorem selected_nil_or_singleton (env : Env σ ε) (m : Method) (path : String) :
    router.selected env m path = [] ∨ ∃ e, router.selected env m path = [e] := by
  have hst := router_stack
  rcases path_cases env path with ⟨hr, hi⟩ | ⟨hr, hi, hy⟩ | ⟨hr, hi, hy⟩ | ⟨hr, hi⟩
  · have h1 : ∀ st, (⟨"/", st⟩ : Route).matchPath env path = .yes := fun st => by
      rw [matchPath_root, hr]; rfl
    have h2 : ∀ st, (⟨"/:id", st⟩ : Route).matchPath env path = .no := fun st =>
      matchPath_id_of_not env st path hi
    cases m <;>
      simp [Router.selected, hst, Route.selects, h1, h2, Route.handlesMethod,
        Route.effective, Route.hasMethod, Route.entry]
  · have h1 : ∀ st, (⟨"/", st⟩ : Route).matchPath env path = .no := fun st => by
      rw [matchPath_root, hr]; rfl
    have h2 : ∀ st, (⟨"/:id", st⟩ : Route).matchPath env path = .yes := fun st => hy
    cases m <;>
      simp [Router.selected, hst, Route.selects, h1, h2, Route.handlesMethod,
        Route.effective, Route.hasMethod, Route.entry]
  · have h1 : ∀ st, (⟨"/", st⟩ : Route).matchPath env path = .no := fun st => by
      rw [matchPath_root, hr]; rfl
    have h2 : ∀ st, (⟨"/:id", st⟩ : Route).matchPath env path = .uriError := fun st => hy
    left
    simp [Router.selected, hst, Route.selects, h1, h2]
  · have h1 : ∀ st, (⟨"/", st⟩ : Route).matchPath env path = .no := fun st => by
      rw [matchPath_root, hr]; rfl
    have h2 : ∀ st, (⟨"/:id", st⟩ : Route).matchPath env path = .no := fun st =>
      matchPath_id_of_not env st path hi
    left
    simp [Router.selected, hst, Route.selects, h1, h2]

/-- Every recorded invocation belongs to one entry of the table, and the
callbacks of that entry before it were invoked and forwarded. -/
theorem trace_entry (env : Env σ ε) (m : Method) (path : String) (s : σ) (k : Nat)
    (x : Fn × Signal ε) (hk : (router.handle env m path s).trace[k]? = some x) :
    ∃ e ∈ router.table, e.fns[k]? = some x.1 ∧
      ∀ j, j < k → ∀ f, e.fns[j]? = some f →
        (router.handle env m path s).trace[j]? = some (f, .next) := by
  rcases selected_cases env m path s with ⟨_, h1, _⟩ | ⟨e, _, h2, h3⟩
  · rw [h1] at hk; simp at hk
  · rw [h3] at hk ⊢
    simp only [runEntry] at hk ⊢
    refine ⟨e, h2, (dispatch_entry env e.method e.fns s k x hk).1, fun j hj f hf => ?_⟩
    obtain ⟨g, hg1, hg2⟩ := dispatch_before env e.method e.fns s k j x hk hj
    rw [hf] at hg1
    simp only [Option.some.injEq] at hg1
    subst hg1
    exact hg2

/-- In every entry of the table, token auth stands before any handler. -/
theorem token_before_handler (e1 e : Entry) (h1 : e1 ∈ router.table) (he : e ∈ router.table)
    (k : Nat) (h : e1.fns[k]? = some e.handler) :
    ∃ j, j < k ∧ e1.fns[j]? = some .usersTokenAuthMiddleware := by
  rw [router_table] at h1 he
  simp only [List.mem_cons, List.mem_singleton, List.not_mem_nil, or_false] at h1 he
  rcases h1 with rfl | rfl | rfl | rfl | rfl <;> rcases he with rfl | rfl | rfl | rfl | rfl <;>
    rcases k with _ | _ | _ | _ | k <;> simp [Entry.fns] at h <;>
    first
    | exact ⟨0, by omega, rfl⟩
    | exact ⟨1, by omega, rfl⟩

/-- In every entry of the table, token auth stands before user auth. -/
theorem token_before_userAuth (e1 : Entry) (h1 : e1 ∈ router.table) (k : Nat)
    (h : e1.fns[k]? = some .userAuthMiddleware) :
    ∃ j, j < k ∧ e1.fns[j]? = some .usersTokenAuthMiddleware := by
  rw [router_table] at h1
  simp only [List.mem_cons, List.mem_singleton, List.not_mem_nil, or_false] at h1
  rcases h1 with rfl | rfl | rfl | rfl | rfl <;>
    rcases k with _ | _ | _ | _ | k <;> simp [Entry.fns] at h <;>
    first
    | exact ⟨0, by omega, rfl⟩
    | exact ⟨1, by omega, rfl⟩

/-! ## The claims -/

theorem pathMatch_root (env : Env σ ε) (path : String) :
    pathMatch env "/" path = if matchesPattern "/" path then .yes else .no :=
  matchPath_root env [] path

/-- C1: the route table of the exported router, read as (method, path pattern,
ordered middleware chain, handler), is exactly the five entries POST "/",
GET "/", GET "/:id", PUT "/:id", DELETE "/:id" with their chains and handlers,
in this order; the reading loses nothing of the router; and schema validation
is a callback of POST "/" only. -/
theorem C1_route_table :
    router.table =
      [ ⟨.POST, "/", [.validateRequestSchema .createCategorySchema, .usersTokenAuthMiddleware,
          .userAuthMiddleware], .postCreateCategory⟩,
        ⟨.GET, "/", [.usersTokenAuthMiddleware], .getCategories⟩,
        ⟨.GET, "/:id", [.usersTokenAuthMiddleware], .getCategoryById⟩,
        ⟨.PUT, "/:id", [.usersTokenAuthMiddleware, .userAuthMiddleware], .updateCategory⟩,
        ⟨.DELETE, "/:id", [.usersTokenAuthMiddleware, .userAuthMiddleware],
          .deleteCategory⟩ ] ∧
    router.stack = router.table.map (fun e => ⟨e.path, e.fns.map (Layer.mk e.method)⟩) ∧
    ∀ e ∈ router.table,
      (Fn.validateRequestSchema .createCategorySchema ∈ e.fns ↔
        e.method = .POST ∧ e.path = "/") := by
  decide

/-- C2: on a POST request whose path matches "/", when the schema validation
does not call `next()`, the validation is the only callback invoked: neither
auth middleware nor `postCreateCategory` runs, whatever they would have done,
and the request is left as the validation left it. -/
theorem C2_invalid_body_rejected (env : Env σ ε) (path : String) (s : σ)
    (hpath : matchesPattern "/" path = true)
    (hfail : (env.call (.validateRequestSchema .createCategorySchema) s).2 ≠ .next) :
    (router.handle env .POST path s).trace =
        [(.validateRequestSchema .createCategorySchema,
          (env.call (.validateRequestSchema .createCategorySchema) s).2)] ∧
      Fn.postCreateCategory ∉ (router.handle env .POST path s).invoked ∧
      Fn.usersTokenAuthMiddleware ∉ (router.handle env .POST path s).invoked ∧
      Fn.userAuthMiddleware ∉ (router.handle env .POST path s).invoked ∧
      (router.handle env .POST path s).state =
        (env.call (.validateRequestSchema .createCategorySchema) s).1 ∧
      (router.handle env .POST path s).outcome =
        (env.call (.validateRequestSchema .createCategorySchema) s).2.outcome := by
  have hsel : (⟨.POST, "/", [.validateRequestSchema .createCategorySchema,
      .usersTokenAuthMiddleware, .userAuthMiddleware], .postCreateCategory⟩ : Entry) ∈
      router.selected env .POST path := by
    rw [mem_selected_iff, router_table]
    refine ⟨by simp, Or.inl rfl, ?_⟩
    rw [pathMatch_root, hpath]; rfl
  obtain ⟨_, _, hh⟩ := handle_of_mem_selected env .POST path s _ hsel
  rw [hh]
  simp only [runEntry, Entry.fns, List.cons_append, List.nil_append, Result.invoked]
  rw [dispatch_cons_stop env .POST _ _ s hfail]
  simp

/-- C2 at the request POST "/" in the environment where the validation answers
the request itself. -/
theorem C2_invalid_body_rejected_witness :
    (router.handle rejectBody .POST "/" ()).trace =
        [(.validateRequestSchema .createCategorySchema, .stop)] ∧
      Fn.postCreateCategory ∉ (router.handle rejectBody .POST "/" ()).invoked ∧
      Fn.usersTokenAuthMiddleware ∉ (router.handle rejectBody .POST "/" ()).invoked ∧
      Fn.userAuthMiddleware ∉ (router.handle rejectBody .POST "/" ()).invoked ∧
      (router.handle rejectBody .POST "/" ()).state = () ∧
      (router.handle rejectBody .POST "/" ()).outcome = .stopped :=
  C2_invalid_body_rejected rejectBody "/" () (by decide) (by decide)

/-- C3: on a GET request whose path matches "/:id", `getCategoryById` is
invoked exactly when `usersTokenAuthMiddleware` was invoked and called `next()`,
and then after it; when the layer matches, token auth runs first on the
incoming state and the handler runs, on the state token auth left, exactly when
token auth calls `next()`. -/
theorem C3_get_by_id_behind_token_auth (env : Env σ ε) (path : String) (s : σ)
    (hpath : matchesPattern "/:id" path = true) :
    (Fn.getCategoryById ∈ (router.handle env .GET path s).invoked ↔
        (Fn.usersTokenAuthMiddleware, Signal.next) ∈ (router.handle env .GET path s).trace) ∧
      (∀ (k : Nat) (sig : Signal ε),
        (router.handle env .GET path s).trace[k]? = some (Fn.getCategoryById, sig) →
        ∃ j, j < k ∧
          (router.handle env .GET path s).trace[j]? =
            some (Fn.usersTokenAuthMiddleware, Signal.next)) ∧
      (pathMatch env "/:id" path = .yes →
        ((env.call .usersTokenAuthMiddleware s).2 = .next →
          (router.handle env .GET path s).trace =
            [(.usersTokenAuthMiddleware, .next),
             (.getCategoryById,
              (env.call .getCategoryById (env.call .usersTokenAuthMiddleware s).1).2)]) ∧
        ((env.call .usersTokenAuthMiddleware s).2 ≠ .next →
          (router.handle env .GET path s).trace =
            [(.usersTokenAuthMiddleware, (env.call .usersTokenAuthMiddleware s).2)])) := by
  have hroot : pathMatch env "/" path = .no := by
    rw [pathMatch_root]
    cases hr : matchesPattern "/" path
    · rfl
    · rw [root_excludes_id path hr] at hpath; simp at hpath
  cases hm : pathMatch env "/:id" path with
  | no => exact absurd hm (matchPath_id_ne_no env [] path hpath)
  | uriError =>
    have hnil : router.selected env .GET path = [] := by
      rw [List.eq_nil_iff_forall_not_mem]
      intro e he
      rw [mem_selected_iff, router_table] at he
      obtain ⟨h1, _, h3⟩ := he
      simp only [List.mem_cons, List.mem_singleton, List.not_mem_nil, or_false] at h1
      rcases h1 with rfl | rfl | rfl | rfl | rfl <;> simp_all
    obtain ⟨ht, _⟩ := handle_of_selected_nil env .GET path s hnil
    simp [Result.invoked, ht]
  | yes =>
    have hsel : (⟨.GET, "/:id", [.usersTokenAuthMiddleware], .getCategoryById⟩ : Entry) ∈
        router.selected env .GET path := by
      rw [mem_selected_iff, router_table]
      exact ⟨by simp, Or.inl rfl, hm⟩
    obtain ⟨_, _, hh⟩ := handle_of_mem_selected env .GET path s _ hsel
    rw [hh]
    simp only [runEntry, Entry.fns, List.cons_append, List.nil_append, Result.invoked]
    by_cases hn : (env.call .usersTokenAuthMiddleware s).2 = .next
    · rw [dispatch_cons_next env .GET _ _ s hn]
      by_cases hn2 :
          (env.call .getCategoryById (env.call .usersTokenAuthMiddleware s).1).2 = .next
      · rw [dispatch_cons_next env .GET _ _ _ hn2]
        simp only [List.map_nil, Route.dispatch]
        refine ⟨by simp, ?_, ?_⟩
        · intro k sig hk
          rcases k with _ | _ | k <;> simp at hk
          exact ⟨0, by omega, by simp⟩
        · intro _
          simp [hn, hn2]
      · rw [dispatch_cons_stop env .GET _ _ _ hn2]
        refine ⟨by simp, ?_, ?_⟩
        · intro k sig hk
          rcases k with _ | _ | k <;> simp at hk
          exact ⟨0, by omega, by simp⟩
        · intro _
          simp [hn]
    · rw [dispatch_cons_stop env .GET _ _ s hn]
      refine ⟨?_, ?_, ?_⟩
      · simp
        intro h
        exact hn h.symm
      · intro k sig hk
        rcases k with _ | k <;> simp at hk
      · intro _
        simp [hn]

/-- C3 at the request GET "/5" in the environment where every callback calls
`next()`. -/
theorem C3_get_by_id_behind_token_auth_witness :
    matchesPattern "/:id" "/5" = true ∧
      (Fn.getCategoryById ∈ (router.handle forwardAll .GET "/5" ()).invoked ↔
        (Fn.usersTokenAuthMiddleware, Signal.next) ∈
          (router.handle forwardAll .GET "/5" ()).trace) ∧
      (router.handle forwardAll .GET "/5" ()).trace =
        [(.usersTokenAuthMiddleware, .next), (.getCategoryById, .next)] :=
  ⟨by decide, (C3_get_by_id_behind_token_auth forwardAll "/5" () (by decide)).1,
    ((C3_get_by_id_behind_token_auth forwardAll "/5" () (by decide)).2.2 (by decide)).1 rfl⟩

/-- C4 fails as stated: `userAuthMiddleware` does not run on every route. The
table holds GET "/" with token auth alone in its chain, and on the request
GET "/" with every callback calling `next()` the callbacks invoked are token
auth and `getCategories`: user auth is not among them. -/
theorem C4_get_skips_user_auth :
    (⟨.GET, "/", [.usersTokenAuthMiddleware], .getCategories⟩ : Entry) ∈ router.table ∧
      (router.handle forwardAll .GET "/" ()).invoked =
        [.usersTokenAuthMiddleware, .getCategories] ∧
      Fn.userAuthMiddleware ∉ (router.handle forwardAll .GET "/" ()).invoked := by
  decide

/-- C4 as amended: on a request that matches one of the five routes, the chain
is the schema validation (on the POST route only), then token auth, then user
auth (on every route but the GET ones), and the callbacks invoked are an
initial part of that chain followed by the handler: all of it when every
middleware of the chain calls `next()`. -/
theorem C4_control_flow (env : Env σ ε) (m : Method) (path : String) (s : σ) (e : Entry)
    (h : e ∈ router.selected env m path) :
    e.chain =
        (if e.method = .POST then [Fn.validateRequestSchema .createCategorySchema] else []) ++
          [Fn.usersTokenAuthMiddleware] ++
          (if e.method = .GET then [] else [Fn.userAuthMiddleware]) ∧
      (router.handle env m path s).invoked <+: e.chain ++ [e.handler] ∧
      ((∀ j, j < e.chain.length → env.forwardsAt e.fns s j) →
        (router.handle env m path s).invoked = e.chain ++ [e.handler]) := by
  obtain ⟨_, htab, hh⟩ := handle_of_mem_selected env m path s e h
  refine ⟨?_, ?_, ?_⟩
  · rw [router_table] at htab
    simp only [List.mem_cons, List.mem_singleton, List.not_mem_nil, or_false] at htab
    rcases htab with rfl | rfl | rfl | rfl | rfl <;> simp
  · rw [hh]
    exact dispatch_initial env e.method e.fns s
  · intro hall
    rw [hh]
    have hlen : e.chain.length <
        (Route.dispatch env e.method (e.fns.map (Layer.mk e.method)) s).1.length :=
      (dispatch_length env e.method e.fns s e.chain.length).2
        ⟨by simp [Entry.fns], hall⟩
    have hpre := dispatch_initial env e.method e.fns s
    have hle := hpre.length_le
    have hfl : e.fns.length = e.chain.length + 1 := by simp [Entry.fns]
    have heq : ((Route.dispatch env e.method (e.fns.map (Layer.mk e.method)) s).1.map
        Prod.fst).length = e.fns.length := by
      simp only [List.length_map] at hle ⊢
      omega
    exact hpre.eq_of_length heq

/-- C4 as amended, at the request PUT "/7" in the environment where every
callback calls `next()`. -/
theorem C4_control_flow_witness :
    (⟨.PUT, "/:id", [.usersTokenAuthMiddleware, .userAuthMiddleware], .updateCategory⟩ :
        Entry) ∈ router.selected forwardAll .PUT "/7" ∧
      (router.handle forwardAll .PUT "/7" ()).invoked =
        [.usersTokenAuthMiddleware, .userAuthMiddleware, .updateCategory] :=
  ⟨by decide,
    (C4_control_flow forwardAll .PUT "/7" ()
      ⟨.PUT, "/:id", [.usersTokenAuthMiddleware, .userAuthMiddleware], .updateCategory⟩
      (by decide)).2.2 (fun j hj => by
        have hj2 : j < 2 := hj
        interval_cases j <;> rfl)⟩

/-- C5 fails as stated: no registered pair has the method HEAD, yet the
request HEAD "/" with every callback calling `next()` invokes token auth and
`getCategories`, because a GET route answers HEAD requests. -/
theorem C5_head_reaches_get_route :
    (∀ e ∈ router.table, e.method ≠ .HEAD) ∧
      (router.handle forwardAll .HEAD "/" ()).invoked =
        [.usersTokenAuthMiddleware, .getCategories] := by
  decide

/-- C5 as amended: a request matched by none of the five registered routes,
where a route matches when its pattern matches the path and its method is the
request's or is GET for a HEAD request, invokes no callback of the router and
leaves the request state untouched. -/
theorem C5_unmatched_invokes_nothing (env : Env σ ε) (m : Method) (path : String) (s : σ)
    (h : ∀ e ∈ router.table,
      ¬((m = e.method ∨ (m = .HEAD ∧ e.method = .GET)) ∧ pathMatch env e.path path = .yes)) :
    (router.handle env m path s).invoked = [] ∧ (router.handle env m path s).trace = [] ∧
      (router.handle env m path s).state = s := by
  have hnil : router.selected env m path = [] := by
    rw [List.eq_nil_iff_forall_not_mem]
    intro e he
    rw [mem_selected_iff] at he
    exact h e he.1 he.2
  obtain ⟨ht, hs⟩ := handle_of_selected_nil env m path s hnil
  exact ⟨by simp [Result.invoked, ht], ht, hs⟩

/-- C5 as amended, at the requests PATCH "/", POST "/5", PUT "/", DELETE "/" and
GET "/1/2" in the environment where every callback calls `next()`. -/
theorem C5_unmatched_invokes_nothing_witness :
    (router.handle forwardAll .PATCH "/" ()).invoked = [] ∧
      (router.handle forwardAll .POST "/5" ()).invoked = [] ∧
      (router.handle forwardAll .PUT "/" ()).invoked = [] ∧
      (router.handle forwardAll .DELETE "/" ()).invoked = [] ∧
      (router.handle forwardAll .GET "/1/2" ()).invoked = [] :=
  ⟨(C5_unmatched_invokes_nothing forwardAll .PATCH "/" () (by decide)).1,
    (C5_unmatched_invokes_nothing forwardAll .POST "/5" () (by decide)).1,
    (C5_unmatched_invokes_nothing forwardAll .PUT "/" () (by decide)).1,
    (C5_unmatched_invokes_nothing forwardAll .DELETE "/" () (by decide)).1,
    (C5_unmatched_invokes_nothing forwardAll .GET "/1/2" () (by decide)).1⟩

/-- C6: the Swagger blocks document exactly the registered routes, one
operation per route and in the same order, under the mount point
"/categories" (post and get on /categories; get, put and delete on
/categories/:id, written with the parameter in braces); no operation and no
route occurs twice; and after the leading components block the file is, route
by route, the block of the operation immediately followed by the registration
it documents. -/
theorem C6_swagger_documents_routes :
    documented program =
        router.table.map (fun e => (openApiPath "/categories" e.path, e.method.verb)) ∧
      documented program =
        [("/categories", "post"), ("/categories", "get"), ("/categories/\x7bid\x7d", "get"),
         ("/categories/\x7bid\x7d", "put"), ("/categories/\x7bid\x7d", "delete")] ∧
      (documented program).Nodup ∧
      (router.table.map (fun e => (e.method, e.path))).Nodup ∧
      program =
        .swagger (.components ["Category"]) ::
          (router.table.map (Entry.stmts "/categories")).flatten := by
  decide

/-- C7: on a request that matches a route, the callbacks invoked are an
initial part of the route's chain followed by its handler, in order; the `k`-th
of them is invoked exactly when all earlier ones called `next()`; each recorded
signal is the one the callback gives on the state left by those before it; the
handler is invoked exactly when every middleware of the chain calls `next()`;
the final state is the one left by the callbacks invoked; and the outcome is
that of the last callback invoked, which is the first one not to call `next()`
or else the handler. -/
theorem C7_chain_semantics (env : Env σ ε) (m : Method) (path : String) (s : σ) (e : Entry)
    (h : e ∈ router.selected env m path) :
    (router.handle env m path s).invoked <+: e.fns ∧
      (∀ k, k < e.fns.length →
        (k < (router.handle env m path s).trace.length ↔
          ∀ j, j < k → env.forwardsAt e.fns s j)) ∧
      (∀ (k : Nat) (x : Fn × Signal ε), (router.handle env m path s).trace[k]? = some x →
        e.fns[k]? = some x.1 ∧ env.signalAt e.fns s k = some x.2) ∧
      (e.handler ∈ (router.handle env m path s).invoked ↔
        ∀ j, j < e.chain.length → env.forwardsAt e.fns s j) ∧
      (router.handle env m path s).state =
        env.after (e.fns.take (router.handle env m path s).trace.length) s ∧
      ∃ x, (router.handle env m path s).trace.getLast? = some x ∧
        (router.handle env m path s).outcome = x.2.outcome ∧
        (x.2 ≠ .next ∨ x.1 = e.handler) := by
  obtain ⟨_, htab, hh⟩ := handle_of_mem_selected env m path s e h
  rw [hh]
  simp only [runEntry, Result.invoked]
  have hfl : e.fns.length = e.chain.length + 1 := by simp [Entry.fns]
  refine ⟨dispatch_initial env e.method e.fns s, ?_, ?_, ?_, dispatch_state env e.method e.fns s,
    ?_⟩
  · intro k hk
    rw [dispatch_length]
    simp [hk]
  · intro k x hx
    exact dispatch_entry env e.method e.fns s k x hx
  · have hnot : e.handler ∉ e.chain := by
      rw [router_table] at htab
      simp only [List.mem_cons, List.mem_singleton, List.not_mem_nil, or_false] at htab
      rcases htab with rfl | rfl | rfl | rfl | rfl <;> simp
    have hpre := dispatch_initial env e.method e.fns s
    rw [List.prefix_iff_eq_take] at hpre
    rw [hpre]
    simp only [List.length_map]
    rw [Entry.fns, mem_take_append_singleton _ _ _ hnot, ← Entry.fns, dispatch_length]
    simp [hfl]
  · obtain ⟨x, h1, h2, h3⟩ := dispatch_last env e.method e.fns s (by simp [Entry.fns])
    refine ⟨x, h1, by rw [h2], ?_⟩
    rcases h3 with h3 | h3
    · exact Or.inl h3
    · right
      simp [Entry.fns] at h3
      exact h3.symm

/-- C7 at the request POST "/" in the environment where the validation answers
the request itself: only the validation is invoked and the outcome is its
own. -/
theorem C7_chain_semantics_witness :
    (⟨.POST, "/", [.validateRequestSchema .createCategorySchema, .usersTokenAuthMiddleware,
        .userAuthMiddleware], .postCreateCategory⟩ : Entry) ∈
        router.selected rejectBody .POST "/" ∧
      (router.handle rejectBody .POST "/" ()).invoked <+:
        [.validateRequestSchema .createCategorySchema, .usersTokenAuthMiddleware,
          .userAuthMiddleware, .postCreateCategory] ∧
      (router.handle rejectBody .POST "/" ()).invoked =
        [.validateRequestSchema .createCategorySchema] ∧
      (router.handle rejectBody .POST "/" ()).outcome = .stopped :=
  ⟨by decide,
    (C7_chain_semantics rejectBody .POST "/" ()
      ⟨.POST, "/", [.validateRequestSchema .createCategorySchema, .usersTokenAuthMiddleware,
        .userAuthMiddleware], .postCreateCategory⟩ (by decide)).1,
    by decide, by decide⟩

/-- C8: every entry of the route table has `usersTokenAuthMiddleware` in its
chain, and on every request a handler of the table is invoked only after token
auth was invoked and called `next()`. -/
theorem C8_token_auth_guards_every_handler (env : Env σ ε) (m : Method) (path : String)
    (s : σ) (e : Entry) (he : e ∈ router.table) :
    Fn.usersTokenAuthMiddleware ∈ e.chain ∧
      ∀ (k : Nat) (sig : Signal ε),
        (router.handle env m path s).trace[k]? = some (e.handler, sig) →
        ∃ j, j < k ∧
          (router.handle env m path s).trace[j]? =
            some (Fn.usersTokenAuthMiddleware, Signal.next) := by
  refine ⟨?_, ?_⟩
  · rw [router_table] at he
    simp only [List.mem_cons, List.mem_singleton, List.not_mem_nil, or_false] at he
    rcases he with rfl | rfl | rfl | rfl | rfl <;> simp
  · intro k sig hk
    obtain ⟨e1, h1, h2, h3⟩ := trace_entry env m path s k _ hk
    obtain ⟨j, hj, hf⟩ := token_before_handler e1 e h1 he k h2
    exact ⟨j, hj, h3 j hj _ hf⟩

/-- C8 at the entry GET "/:id" and the request GET "/5" in the environment where
every callback calls `next()`. -/
theorem C8_token_auth_guards_every_handler_witness :
    (⟨.GET, "/:id", [.usersTokenAuthMiddleware], .getCategoryById⟩ : Entry) ∈ router.table ∧
      (router.handle forwardAll .GET "/5" ()).trace[1]? = some (.getCategoryById, .next) ∧
      ∃ j, j < 1 ∧
        (router.handle forwardAll .GET "/5" ()).trace[j]? =
          some (Fn.usersTokenAuthMiddleware, Signal.next) :=
  ⟨by decide, by decide,
    (C8_token_auth_guards_every_handler forwardAll .GET "/5" ()
      ⟨.GET, "/:id", [.usersTokenAuthMiddleware], .getCategoryById⟩ (by decide)).2 1 .next
      (by decide)⟩

/-- C9: in every chain that holds `userAuthMiddleware`, token auth stands
strictly earlier; on every request user auth is invoked only after token auth
was invoked and called `next()`; and the entries that carry user auth are
exactly POST "/", PUT "/:id" and DELETE "/:id", that is, the ones whose method
is not GET: the entries of the table with user auth in their chain are these
three registered routes, each with token auth before user auth, and no
other. -/
theorem C9_user_auth_after_token_auth (env : Env σ ε) (m : Method) (path : String) (s : σ) :
    (∀ e ∈ router.table, ∀ (k : Nat), e.chain[k]? = some Fn.userAuthMiddleware →
        ∃ j, j < k ∧ e.chain[j]? = some Fn.usersTokenAuthMiddleware) ∧
      (∀ (k : Nat) (sig : Signal ε),
        (router.handle env m path s).trace[k]? = some (Fn.userAuthMiddleware, sig) →
        ∃ j, j < k ∧
          (router.handle env m path s).trace[j]? =
            some (Fn.usersTokenAuthMiddleware, Signal.next)) ∧
      (∀ e ∈ router.table,
        (Fn.userAuthMiddleware ∈ e.chain ↔
          (e.method, e.path) ∈ [(Method.POST, "/"), (Method.PUT, "/:id"),
            (Method.DELETE, "/:id")])) ∧
      (∀ e ∈ router.table, (Fn.userAuthMiddleware ∈ e.chain ↔ e.method ≠ .GET)) ∧
      router.table.filter (fun e => decide (Fn.userAuthMiddleware ∈ e.chain)) =
        [ ⟨.POST, "/", [.validateRequestSchema .createCategorySchema,
            .usersTokenAuthMiddleware, .userAuthMiddleware], .postCreateCategory⟩,
          ⟨.PUT, "/:id", [.usersTokenAuthMiddleware, .userAuthMiddleware], .updateCategory⟩,
          ⟨.DELETE, "/:id", [.usersTokenAuthMiddleware, .userAuthMiddleware],
            .deleteCategory⟩ ] ∧
      (router.table.filter (fun e => decide (Fn.userAuthMiddleware ∈ e.chain))).map
          (fun e => (e.method, e.path)) =
        [(Method.POST, "/"), (Method.PUT, "/:id"), (Method.DELETE, "/:id")] := by
  refine ⟨?_, ?_, by decide, by decide, by decide, by decide⟩
  · intro e he k hk
    rw [router_table] at he
    simp only [List.mem_cons, List.mem_singleton, List.not_mem_nil, or_false] at he
    rcases he with rfl | rfl | rfl | rfl | rfl <;>
      rcases k with _ | _ | _ | k <;> simp at hk <;>
      first
      | exact ⟨0, by omega, rfl⟩
      | exact ⟨1, by omega, rfl⟩
  · intro k sig hk
    obtain ⟨e1, h1, h2, h3⟩ := trace_entry env m path s k _ hk
    obtain ⟨j, hj, hf⟩ := token_before_userAuth e1 h1 k h2
    exact ⟨j, hj, h3 j hj _ hf⟩

/-- C9 at the requests POST "/", PUT "/7" and DELETE "/7" in the environment
where every callback calls `next()`: user auth is invoked on each of the three
routes, and token auth was invoked before it and called `next()`. -/
theorem C9_user_auth_after_token_auth_witness :
    ((router.handle forwardAll .POST "/" ()).trace[2]? =
        some (Fn.userAuthMiddleware, Signal.next) ∧
      ∃ j, j < 2 ∧
        (router.handle forwardAll .POST "/" ()).trace[j]? =
          some (Fn.usersTokenAuthMiddleware, Signal.next)) ∧
    ((router.handle forwardAll .PUT "/7" ()).trace[1]? =
        some (Fn.userAuthMiddleware, Signal.next) ∧
      ∃ j, j < 1 ∧
        (router.handle forwardAll .PUT "/7" ()).trace[j]? =
          some (Fn.usersTokenAuthMiddleware, Signal.next)) ∧
    ((router.handle forwardAll .DELETE "/7" ()).trace[1]? =
        some (Fn.userAuthMiddleware, Signal.next) ∧
      ∃ j, j < 1 ∧
        (router.handle forwardAll .DELETE "/7" ()).trace[j]? =
          some (Fn.usersTokenAuthMiddleware, Signal.next)) :=
  ⟨⟨by decide,
      (C9_user_auth_after_token_auth forwardAll .POST "/" ()).2.1 2 .next (by decide)⟩,
    ⟨by decide,
      (C9_user_auth_after_token_auth forwardAll .PUT "/7" ()).2.1 1 .next (by decide)⟩,
    ⟨by decide,
      (C9_user_auth_after_token_auth forwardAll .DELETE "/7" ()).2.1 1 .next (by decide)⟩⟩

/-- C10: every request matches at most one registered route; two distinct
entries of the table with the same method never match the same path; no path
matches both "/" and "/:id"; and a GET request whose path matches "/" is
dispatched to the GET "/" entry alone, so `getCategoryById` is not invoked and
the callbacks invoked are token auth, followed by `getCategories` when it is
reached. -/
theorem C10_dispatch_unambiguous (env : Env σ ε) (m : Method) (path : String) :
    (router.selected env m path).length ≤ 1 ∧
      (∀ e1 ∈ router.table, ∀ e2 ∈ router.table, e1 ≠ e2 →
        ¬(e1.method = e2.method ∧ matchesPattern e1.path path = true ∧
          matchesPattern e2.path path = true)) ∧
      ¬(matchesPattern "/" path = true ∧ matchesPattern "/:id" path = true) ∧
      (matchesPattern "/" path = true →
        router.selected env .GET path =
          [⟨.GET, "/", [.usersTokenAuthMiddleware], .getCategories⟩] ∧
        ∀ s, Fn.getCategoryById ∉ (router.handle env .GET path s).invoked ∧
          (router.handle env .GET path s).invoked <+:
            [.usersTokenAuthMiddleware, .getCategories]) := by
  have hex : ¬(matchesPattern "/" path = true ∧ matchesPattern "/:id" path = true) := by
    rintro ⟨h1, h2⟩
    rw [root_excludes_id path h1] at h2
    simp at h2
  refine ⟨?_, ?_, hex, ?_⟩
  · rcases selected_nil_or_singleton env m path with h | ⟨e, h⟩ <;> simp [h]
  · intro e1 h1 e2 h2 hne
    rw [router_table] at h1 h2
    simp only [List.mem_cons, List.mem_singleton, List.not_mem_nil, or_false] at h1 h2
    rcases h1 with rfl | rfl | rfl | rfl | rfl <;> rcases h2 with rfl | rfl | rfl | rfl | rfl <;>
      simp at hne ⊢ <;>
      intro a <;>
      first
      | exact Bool.eq_false_iff.2 (fun b => hex ⟨a, b⟩)
      | exact Bool.eq_false_iff.2 (fun b => hex ⟨b, a⟩)
  · intro hr
    have hsel : (⟨.GET, "/", [.usersTokenAuthMiddleware], .getCategories⟩ : Entry) ∈
        router.selected env .GET path := by
      rw [mem_selected_iff, router_table]
      refine ⟨by simp, Or.inl rfl, ?_⟩
      rw [pathMatch_root, hr]; rfl
    refine ⟨?_, fun s => ?_⟩
    · rcases selected_nil_or_singleton env .GET path with h | ⟨e, h⟩
      · rw [h] at hsel; simp at hsel
      · rw [h] at hsel ⊢
        simp only [List.mem_singleton] at hsel
        rw [hsel]
    · obtain ⟨_, _, hh⟩ := handle_of_mem_selected env .GET path s _ hsel
      have hpre : (router.handle env .GET path s).invoked <+:
          [.usersTokenAuthMiddleware, .getCategories] := by
        rw [hh]
        exact dispatch_initial env .GET [.usersTokenAuthMiddleware, .getCategories] s
      refine ⟨fun hmem => ?_, hpre⟩
      have := hpre.subset hmem
      simp at this

end CategoriesRouter
